import Mathlib

/-!
Surge XT: overlay wrapper and effect adapter.

A verification development over two parts of the repository.

* `src/surge-xt/gui/overlays/OverlayWrapper.{h,cpp}`: the window shell that
  hosts an overlay, with its layout, tear-out and drag handling.  Every member
  function of `OverlayWrapper` is translated statement by statement into a
  function on an explicit wrapper state.
* `src/common/dsp/effects/FloatyDelayEffect.h`: the effect adapter.  Only the
  declarations are part of the sources; the bodies are modelled from the
  specification and each such definition says so.

Conventions of the embedding.

* C++ `int` is a 32 bit two's complement integer: values are kept as `Int` and
  every `+`, `-` and `*` of the code is followed by `wrapInt`, the wrap-around
  the compiled code performs on overflow.
* `float` is IEEE 754 binary32 and `double` is binary64: a `FloatVal` is a
  dyadic number, an infinity or NaN, and every operation rounds to nearest,
  ties to even.  Conversion to `int` truncates toward zero and is `none` (the
  operation is undefined) when the value does not fit.
* A pointer that may be null is an `Option`; dereferencing a null pointer makes
  the operation return `none`.
* Calls that leave the wrapper (callbacks, virtual calls on the child, the user
  default store, repaint requests) are appended to a call log in the state.
-/

set_option autoImplicit false

namespace ieee

/-- A binary floating point format: precision in bits, least and greatest
exponent of a normal number. -/
structure Format where
  prec : Nat
  emin : Int
  emax : Int
deriving DecidableEq, Repr

/-- The format of `float`. -/
def binary32 : Format := ⟨24, -126, 127⟩

/-- The format of `double`. -/
def binary64 : Format := ⟨53, -1022, 1023⟩

/-- A floating point value: `finite m e` is the number `m * 2 ^ e`.  The sign of
zero is not kept; no operation of the wrapper depends on it. -/
inductive FloatVal where
  | finite (m : Int) (e : Int)
  | posInf
  | negInf
  | nan
deriving DecidableEq, Repr

instance : OfNat FloatVal 0 := ⟨FloatVal.finite 0 0⟩

/-- The infinity of the given sign. -/
def infinity (neg : Bool) : FloatVal :=
  if neg then FloatVal.negInf else FloatVal.posInf

/-- The integer of magnitude `n` and the given sign. -/
def withSign (neg : Bool) (n : Nat) : Int :=
  if neg then -(n : Int) else (n : Int)

/-- The quotient `num / den` rounded to the nearest integer, ties to even. -/
def roundQuotient (num den : Nat) : Nat :=
  let q := num / den
  let r := num % den
  if 2 * r < den then q
  else if den < 2 * r then q + 1
  else if q % 2 = 0 then q else q + 1

/-- Loop of `floorLog2`: halves `n` until it is below 2. -/
def floorLog2Loop : Nat → Nat → Nat
  | 0, _ => 0
  | fuel + 1, n => if n < 2 then 0 else floorLog2Loop fuel (n / 2) + 1

/-- The position of the highest set bit of `n` (zero for `n = 0`). -/
def floorLog2 (n : Nat) : Nat :=
  floorLog2Loop n n

/-- The fraction `a / b` with the given sign, rounded into the format: the
exponent of the result is the exponent of `a / b`, not below `emin`, the
significand is rounded to `prec` bits, and a result beyond the largest finite
number is an infinity. -/
def roundFrac (fmt : Format) (neg : Bool) (a b : Nat) : FloatVal :=
  if a = 0 then FloatVal.finite 0 0
  else
    let d : Int := (floorLog2 a : Int) - (floorLog2 b : Int)
    let atLeast : Bool :=
      if 0 ≤ d then decide (b * 2 ^ d.toNat ≤ a) else decide (b ≤ a * 2 ^ (-d).toNat)
    let e : Int := if atLeast then d else d - 1
    let qe : Int := max e fmt.emin - ((fmt.prec : Int) - 1)
    let num : Nat := if 0 ≤ qe then a else a * 2 ^ (-qe).toNat
    let den : Nat := if 0 ≤ qe then b * 2 ^ qe.toNat else b
    let n := roundQuotient num den
    let k : Int := fmt.emax + 1 - qe
    if n ≠ 0 ∧ k ≤ (floorLog2 n : Int) then infinity neg
    else FloatVal.finite (withSign neg n) qe

/-- The dyadic number `m * 2 ^ e` rounded into the format.  A number that is in
the format as it stands is returned unchanged. -/
def roundDyadic (fmt : Format) (m e : Int) : FloatVal :=
  if m.natAbs ≤ 2 ^ fmt.prec ∧ fmt.emin - ((fmt.prec : Int) - 1) ≤ e ∧
      e < fmt.emax - ((fmt.prec : Int) - 1) then
    FloatVal.finite m e
  else if 0 ≤ e then roundFrac fmt (decide (m < 0)) (m.natAbs * 2 ^ e.toNat) 1
  else roundFrac fmt (decide (m < 0)) m.natAbs (2 ^ (-e).toNat)

/-- Conversion of an `int` to the format. -/
def ofInt (fmt : Format) (n : Int) : FloatVal :=
  roundDyadic fmt n 0

/-- Conversion of a floating point value to the format (`double` to `float`). -/
def convert (fmt : Format) : FloatVal → FloatVal
  | FloatVal.finite m e => roundDyadic fmt m e
  | x => x

/-- Whether the value is below zero. -/
def isNeg : FloatVal → Bool
  | FloatVal.finite m _ => decide (m < 0)
  | FloatVal.negInf => true
  | _ => false

/-- The difference `x - y` in the format. -/
def sub (fmt : Format) : FloatVal → FloatVal → FloatVal
  | FloatVal.nan, _ => FloatVal.nan
  | _, FloatVal.nan => FloatVal.nan
  | FloatVal.posInf, FloatVal.posInf => FloatVal.nan
  | FloatVal.negInf, FloatVal.negInf => FloatVal.nan
  | FloatVal.posInf, _ => FloatVal.posInf
  | FloatVal.negInf, _ => FloatVal.negInf
  | FloatVal.finite _ _, FloatVal.posInf => FloatVal.negInf
  | FloatVal.finite _ _, FloatVal.negInf => FloatVal.posInf
  | FloatVal.finite m1 e1, FloatVal.finite m2 e2 =>
    let e := min e1 e2
    roundDyadic fmt (m1 * 2 ^ (e1 - e).toNat - m2 * 2 ^ (e2 - e).toNat) e

/-- The product `x * y` in the format. -/
def mul (fmt : Format) : FloatVal → FloatVal → FloatVal
  | FloatVal.nan, _ => FloatVal.nan
  | _, FloatVal.nan => FloatVal.nan
  | FloatVal.finite m1 e1, FloatVal.finite m2 e2 => roundDyadic fmt (m1 * m2) (e1 + e2)
  | FloatVal.finite m _, y =>
    if m = 0 then FloatVal.nan else infinity (decide (m < 0) != isNeg y)
  | x, FloatVal.finite m _ =>
    if m = 0 then FloatVal.nan else infinity (isNeg x != decide (m < 0))
  | x, y => infinity (isNeg x != isNeg y)

/-- The quotient `x / y` in the format. -/
def div (fmt : Format) : FloatVal → FloatVal → FloatVal
  | FloatVal.nan, _ => FloatVal.nan
  | _, FloatVal.nan => FloatVal.nan
  | FloatVal.finite m1 e1, FloatVal.finite m2 e2 =>
    if m2 = 0 then (if m1 = 0 then FloatVal.nan else infinity (decide (m1 < 0)))
    else
      let e := e1 - e2
      let sgn := decide (m1 < 0) != decide (m2 < 0)
      if 0 ≤ e then roundFrac fmt sgn (m1.natAbs * 2 ^ e.toNat) m2.natAbs
      else roundFrac fmt sgn m1.natAbs (m2.natAbs * 2 ^ (-e).toNat)
  | FloatVal.finite _ _, _ => FloatVal.finite 0 0
  | x, FloatVal.finite m _ => infinity (isNeg x != decide (m < 0))
  | _, _ => FloatVal.nan

/-- The comparison `x < y`; false when either side is NaN. -/
def lt : FloatVal → FloatVal → Bool
  | FloatVal.nan, _ => false
  | _, FloatVal.nan => false
  | FloatVal.posInf, _ => false
  | _, FloatVal.negInf => false
  | FloatVal.negInf, _ => true
  | _, FloatVal.posInf => true
  | FloatVal.finite m1 e1, FloatVal.finite m2 e2 =>
    let e := min e1 e2
    decide (m1 * 2 ^ (e1 - e).toNat < m2 * 2 ^ (e2 - e).toNat)

/-- The function `std::max (a, b)`: `(a < b) ? b : a`. -/
def stdMax (a b : FloatVal) : FloatVal :=
  if lt a b then b else a

/-- The function `std::min (a, b)`: `(b < a) ? b : a`. -/
def stdMin (a b : FloatVal) : FloatVal :=
  if lt b a then b else a

/-- Conversion to `int`: truncation toward zero; `none` for NaN, an infinity or
a value outside the range of `int`. -/
def toInt32 : FloatVal → Option Int
  | FloatVal.finite m e =>
    let t : Int := if 0 ≤ e then m * 2 ^ e.toNat else Int.tdiv m (2 ^ (-e).toNat)
    if -2147483648 ≤ t ∧ t ≤ 2147483647 then some t else none
  | _ => none

end ieee

namespace juce

/-- The result of an `int` operation: the exact result reduced to 32 bits, two's
complement. -/
def wrapInt (v : Int) : Int :=
  (v + 2147483648) % 4294967296 - 2147483648

/-- The number is a value of `int`. -/
def IsInt (v : Int) : Prop :=
  -2147483648 ≤ v ∧ v ≤ 2147483647

instance (v : Int) : Decidable (IsInt v) := by
  unfold IsInt
  infer_instance

/-- The class `juce::Rectangle<int>`: position of the top left corner and size. -/
structure Rectangle where
  x : Int
  y : Int
  w : Int
  h : Int
deriving DecidableEq, Repr

namespace Rectangle

/-- `Rectangle::withHeight`: same position and width, height clamped at zero. -/
def withHeight (r : Rectangle) (newHeight : Int) : Rectangle :=
  { x := r.x, y := r.y, w := r.w, h := max 0 newHeight }

/-- `Rectangle::withLeft`: moves the left edge and keeps the right edge. -/
def withLeft (r : Rectangle) (newLeft : Int) : Rectangle :=
  { x := newLeft, y := r.y, w := max 0 (wrapInt (wrapInt (r.x + r.w) - newLeft)), h := r.h }

/-- `Rectangle::translated`. -/
def translated (r : Rectangle) (dx dy : Int) : Rectangle :=
  { x := wrapInt (r.x + dx), y := wrapInt (r.y + dy), w := r.w, h := r.h }

/-- `Rectangle::expanded`: grows by `dx`, `dy` on every side, sizes clamped at zero. -/
def expanded (r : Rectangle) (dx dy : Int) : Rectangle :=
  { x := wrapInt (r.x - dx)
    y := wrapInt (r.y - dy)
    w := max 0 (wrapInt (r.w + wrapInt (dx * 2)))
    h := max 0 (wrapInt (r.h + wrapInt (dy * 2))) }

/-- `Rectangle::reduced (dx, dy)` is `expanded (-dx, -dy)`. -/
def reduced (r : Rectangle) (dx dy : Int) : Rectangle :=
  r.expanded (wrapInt (-dx)) (wrapInt (-dy))

/-- `Rectangle::withTrimmedBottom (a)` is `withHeight (h - a)`. -/
def withTrimmedBottom (r : Rectangle) (amountToRemove : Int) : Rectangle :=
  r.withHeight (wrapInt (r.h - amountToRemove))

/-- `Rectangle::contains (Rectangle other)`. -/
def contains (r other : Rectangle) : Bool :=
  decide (r.x ≤ other.x) && decide (r.y ≤ other.y)
    && decide (wrapInt (r.x + r.w) ≥ wrapInt (other.x + other.w))
    && decide (wrapInt (r.y + r.h) ≥ wrapInt (other.y + other.h))

/-- `Rectangle::intersects (Rectangle other)`. -/
def intersects (r other : Rectangle) : Bool :=
  decide (wrapInt (r.x + r.w) > other.x) && decide (wrapInt (r.y + r.h) > other.y)
    && decide (r.x < wrapInt (other.x + other.w)) && decide (r.y < wrapInt (other.y + other.h))
    && decide (r.w > 0) && decide (r.h > 0)
    && decide (other.w > 0) && decide (other.h > 0)

end Rectangle

/-- What `juce::Component::setBounds` stores: negative sizes become zero. -/
def boundsAsSet (r : Rectangle) : Rectangle :=
  { x := r.x, y := r.y, w := max 0 r.w, h := max 0 r.h }

/-- What `juce::Component::getLocalBounds` returns for a component with bounds `r`. -/
def localBoundsOf (r : Rectangle) : Rectangle :=
  { x := 0, y := 0, w := r.w, h := r.h }

/-- Every field of the rectangle is a value of `int`. -/
def Rectangle.IsInt (r : Rectangle) : Prop :=
  juce.IsInt r.x ∧ juce.IsInt r.y ∧ juce.IsInt r.w ∧ juce.IsInt r.h

instance (r : Rectangle) : Decidable r.IsInt := by
  unfold Rectangle.IsInt
  infer_instance

end juce

namespace Surge
namespace Overlays

open juce ieee

/-- The part of `OverlayComponent` that the wrapper reads: `getCanMoveAround()`,
`getMoveAroundKey()` (a `Surge::Storage::DefaultKey`, kept as its number),
`defaultLocation` and `getEnclosingParentTitle()`.  The class itself is declared
in `OverlayComponent.h`, which the wrapper only includes. -/
structure OverlayComponent where
  canMoveAround : Bool
  moveAroundKey : Nat
  defaultLocation : Int × Int
  enclosingParentTitle : String
deriving DecidableEq, Repr

/-- The `juce::Component` held in `primaryChild`.  `transform` is `none` for the
identity `AffineTransform()` and `some sc` for `AffineTransform::scale (sc)`,
whose parameter is a `float`.
`overlay` is the result of `dynamic_cast<OverlayComponent *>` and `skinConsumer`
tells whether `dynamic_cast<SkinConsumingComponent *>` succeeds. -/
structure Child where
  bounds : Rectangle
  transform : Option FloatVal
  visible : Bool
  overlay : Option OverlayComponent
  skinConsumer : Bool
  skin : Option Nat
deriving DecidableEq, Repr

/-- One of the two `juce::TextButton`s the wrapper owns. -/
structure TextButton where
  text : String
  visible : Bool
  bounds : Rectangle
deriving DecidableEq, Repr

/-- The component `getParentComponent()` points to: its size, and whether it is
the tear-out window. -/
structure ParentComponent where
  isTearOutWindow : Bool
  width : Int
  height : Int
deriving DecidableEq, Repr

/-- The `TearOutWindow` built in `doTearOut`. -/
structure TearOutWindow where
  title : String
  contentWidth : Int
  contentHeight : Int
  visible : Bool
  position : Option (Int × Int)
  wrapping : Bool
deriving DecidableEq, Repr

/-- The part of `SurgeGUIEditor` the wrapper reads: the value of
`getZoomFactor()`, as the `double` it is converted to in `1.0 * getZoomFactor()`. -/
structure SurgeGUIEditor where
  zoomFactor : FloatVal
deriving DecidableEq, Repr

/-- A call that leaves the wrapper.  `updateUserDefaultValue` carries the
`SurgeStorage *` it was given, the key and the pair of coordinates. -/
inductive Call where
  | closeOverlay
  | updateUserDefaultValue (storage : Option Nat) (key : Nat) (value : Int × Int)
  | onTearOutChanged (tornOut : Bool)
  | setSkin (skin : Option Nat)
  | repaint
deriving DecidableEq, Repr

/-- The button a `buttonClicked` notification comes from. -/
inductive ButtonRef where
  | closeButton
  | tearOutButton
  | other
deriving DecidableEq, Repr

/-- A `juce::MouseEvent`, reduced to what the handlers use: the value of
`localPointToGlobal (e.position)`, a `juce::Point<float>`. -/
structure MouseEvent where
  globalPosition : FloatVal × FloatVal
deriving DecidableEq, Repr

/-- The state of an `OverlayWrapper`: the data members of `OverlayWrapper.h`, the
`juce::Component` base (bounds, parent, visibility), the skin of the
`SkinConsumingComponent` base, and the log of outgoing calls.  `icon` is kept as
the flag `hasIcon`.  The callback `closeOverlay` is host code and no field:
running it appends `Call.closeOverlay` to the log. -/
structure OverlayWrapper where
  bounds : Rectangle
  parent : Option ParentComponent
  visible : Bool
  skin : Option Nat
  title : String
  editor : Option SurgeGUIEditor
  storage : Option Nat
  primaryChild : Option Child
  closeButton : TextButton
  tearOutButton : TextButton
  distanceFromCornerToMouseDown : FloatVal × FloatVal
  isDragging : Bool
  allowDrag : Bool
  hasIcon : Bool
  canTearOut : Bool
  locationBeforeTearOut : Rectangle
  childLocationBeforeTearOut : Rectangle
  parentBeforeTearOut : Option ParentComponent
  hasInteriorDec : Bool
  showCloseButton : Bool
  componentBounds : Rectangle
  isModal : Bool
  tearOutParent : Option TearOutWindow
  calls : List Call
deriving DecidableEq, Repr

namespace OverlayWrapper

/-- The constant `titlebarSize`. -/
def titlebarSize : Int := 14

/-- The constant `margin`. -/
def margin : Int := 1

/-- The default form, `OverlayWrapper::OverlayWrapper()`: both buttons are created
and added as (invisible) children; every other member has its in-class
initialiser. -/
def default : OverlayWrapper :=
  { bounds := ⟨0, 0, 0, 0⟩
    parent := none
    visible := false
    skin := none
    title := ""
    editor := none
    storage := none
    primaryChild := none
    closeButton := { text := "X", visible := false, bounds := ⟨0, 0, 0, 0⟩ }
    tearOutButton := { text := "^", visible := false, bounds := ⟨0, 0, 0, 0⟩ }
    distanceFromCornerToMouseDown := (FloatVal.finite 0 0, FloatVal.finite 0 0)
    isDragging := false
    allowDrag := true
    hasIcon := false
    canTearOut := false
    locationBeforeTearOut := ⟨0, 0, 0, 0⟩
    childLocationBeforeTearOut := ⟨0, 0, 0, 0⟩
    parentBeforeTearOut := none
    hasInteriorDec := true
    showCloseButton := true
    componentBounds := ⟨0, 0, 0, 0⟩
    isModal := false
    tearOutParent := none
    calls := [] }

/-- The modal form, `OverlayWrapper::OverlayWrapper(const juce::Rectangle<int> &cb)`. -/
def modal (cb : Rectangle) : OverlayWrapper :=
  { default with componentBounds := cb, isModal := true }

/-- `getLocalBounds()` of the wrapper. -/
def getLocalBounds (w : OverlayWrapper) : Rectangle :=
  localBoundsOf w.bounds

/-- `setBounds (r)` on the wrapper. -/
def setBounds (w : OverlayWrapper) (r : Rectangle) : OverlayWrapper :=
  { w with bounds := boundsAsSet r }

/-- `setSize (nw, nh)` on the wrapper: `setBounds (getX(), getY(), nw, nh)`. -/
def setSize (w : OverlayWrapper) (nw nh : Int) : OverlayWrapper :=
  w.setBounds ⟨w.bounds.x, w.bounds.y, nw, nh⟩

/-- `OverlayWrapper::isTornOut`. -/
def isTornOut (w : OverlayWrapper) : Bool :=
  w.tearOutParent.isSome

/-- `OverlayWrapper::getPrimaryChildAsOverlayComponent`. -/
def getPrimaryChildAsOverlayComponent (w : OverlayWrapper) : Option OverlayComponent :=
  w.primaryChild.bind (fun c => c.overlay)

/-- The rectangle `paint` and `addAndTakeOwnership` call `sp`. -/
def sp (w : OverlayWrapper) : Rectangle :=
  if w.isModal then w.componentBounds else w.getLocalBounds

/-- The rectangle `paint` draws the title into: `sp.withHeight (titlebarSize + margin)`. -/
def titleStrip (w : OverlayWrapper) : Rectangle :=
  w.sp.withHeight (wrapInt (titlebarSize + margin))

/-- `OverlayWrapper::addAndTakeOwnership`.  A null `c` is dereferenced by
`primaryChild->setBounds`. -/
def addAndTakeOwnership (w : OverlayWrapper) (c : Option Child) : Option OverlayWrapper :=
  let w1 := { w with hasInteriorDec := true }
  let q :=
    ((w1.sp.reduced (wrapInt (2 * margin)) (wrapInt (2 * margin))).withTrimmedBottom
      titlebarSize).translated 0 (wrapInt (titlebarSize + wrapInt (0 * margin)))
  match c with
  | none => none
  | some child =>
    let child1 := { child with bounds := boundsAsSet q }
    let buttonSize := wrapInt (titlebarSize - 2)
    let closeButtonBounds :=
      ((w1.getLocalBounds.withHeight buttonSize).withLeft
        (wrapInt (w1.bounds.w - buttonSize))).translated (-2) 2
    let tearOutButtonBounds :=
      closeButtonBounds.translated (wrapInt (wrapInt (-buttonSize) - 2)) 0
    let cb : TextButton :=
      if w1.showCloseButton then
        { w1.closeButton with visible := true, bounds := boundsAsSet closeButtonBounds }
      else { w1.closeButton with visible := false }
    let tb : TextButton :=
      if w1.canTearOut then
        { w1.tearOutButton with visible := true, bounds := boundsAsSet tearOutButtonBounds }
      else { w1.tearOutButton with visible := false }
    some { w1 with
      primaryChild := some { child1 with visible := true }
      closeButton := cb
      tearOutButton := tb }

/-- `OverlayWrapper::onClose`: the callback runs, then a torn-out wrapper drops
its window.  Destroying the window detaches the wrapper from it. -/
def onClose (w : OverlayWrapper) : OverlayWrapper :=
  let w1 := { w with calls := w.calls ++ [Call.closeOverlay] }
  if w1.isTornOut then
    { w1 with
      tearOutParent := none
      parent := match w1.parent with
        | some p => if p.isTearOutWindow then none else some p
        | none => none }
  else w1

/-- `OverlayWrapper::supressInteriorDecoration`. -/
def supressInteriorDecoration (w : OverlayWrapper) : Option OverlayWrapper :=
  let w1 := { w with hasInteriorDec := false }
  match w1.primaryChild with
  | none => none
  | some child =>
    let w2 := w1.setSize child.bounds.w child.bounds.h
    some { w2 with primaryChild := some { child with bounds := boundsAsSet w2.getLocalBounds } }

/-- The zoom step of `doTearOut`, run when `editor` is not null: `sc` is
`1.0 * getZoomFactor() / 100.0` in `double`, width and height are multiplied by
it and converted back to `int`, the wrapper gets that size, the child the
transform `scale (sc)` and the local bounds.  Yields the new width and height,
the wrapper and the child. -/
def zoomForTearOut (w : OverlayWrapper) (child : Child) (ed : SurgeGUIEditor) :
    Option (Int × Int × OverlayWrapper × Child) :=
  let sc := div binary64 (mul binary64 (FloatVal.finite 1 0) ed.zoomFactor) (FloatVal.finite 100 0)
  match toInt32 (mul binary64 (ofInt binary64 w.bounds.w) sc),
      toInt32 (mul binary64 (ofInt binary64 w.bounds.h) sc) with
  | some width1, some height1 =>
    let w4 := w.setSize width1 height1
    let child1 :=
      { child with
        transform := some (convert binary32 sc)
        bounds := boundsAsSet w4.getLocalBounds }
    some (width1, height1, { w4 with primaryChild := some child1 }, child1)
  | _, _ => none

/-- `OverlayWrapper::doTearOut`. -/
def doTearOut (w : OverlayWrapper) (showAt : Int × Int) : Option OverlayWrapper :=
  let w1 := { w with parentBeforeTearOut := w.parent, locationBeforeTearOut := w.bounds }
  match w1.primaryChild with
  | none => none
  | some child =>
    let w2 := { w1 with childLocationBeforeTearOut := child.bounds }
    match w2.parent with
    | none => none
    | some _ =>
      let w3 := { w2 with parent := none }
      let scaled : Option (Int × Int × OverlayWrapper × Child) :=
        match w3.editor with
        | some ed => zoomForTearOut w3 child ed
        | none => some (w3.bounds.w, w3.bounds.h, w3, child)
      match scaled with
      | none => none
      | some (width2, height2, w5, child2) =>
        let titled : String × OverlayWrapper :=
          match child2.overlay with
          | some oc =>
            (oc.enclosingParentTitle,
              { w5 with calls := w5.calls ++ [Call.onTearOutChanged true] })
          | none => ("Tear Out", w5)
        let w6 := titled.2
        let dw : TearOutWindow :=
          { title := titled.1
            contentWidth := width2
            contentHeight := height2
            visible := true
            position := if 0 ≤ showAt.1 ∧ 0 ≤ showAt.2 then some showAt else none
            wrapping := true }
        let w7 := { w6 with parent := some ⟨true, width2, height2⟩ }
        match w7.supressInteriorDecoration with
        | none => none
        | some w8 => some { w8 with tearOutParent := some dw }

/-- `OverlayWrapper::currentTearOutLocation`. -/
def currentTearOutLocation (w : OverlayWrapper) : Option (Int × Int) :=
  match w.tearOutParent with
  | none => some (-1, -1)
  | some dw => dw.position

/-- `OverlayWrapper::doTearIn`. -/
def doTearIn (w : OverlayWrapper) : Option OverlayWrapper :=
  if !w.isTornOut || w.parentBeforeTearOut.isNone then
    some w.onClose
  else
    let w1 := { w with tearOutParent := none, hasInteriorDec := true }
    match w1.primaryChild with
    | none => none
    | some child =>
      let child1 :=
        { child with transform := none, bounds := boundsAsSet w1.childLocationBeforeTearOut }
      let w2 := { w1 with primaryChild := some child1 }
      let w3 := w2.setBounds w2.locationBeforeTearOut
      let w4 := { w3 with parent := w3.parentBeforeTearOut, visible := true }
      let w5 := { w4 with parentBeforeTearOut := none }
      match child1.overlay with
      | some _ => some { w5 with calls := w5.calls ++ [Call.onTearOutChanged false] }
      | none => some w5

/-- `OverlayWrapper::buttonClicked`. -/
def buttonClicked (w : OverlayWrapper) (button : ButtonRef) : Option OverlayWrapper :=
  let w1 := if button = ButtonRef.closeButton then w.onClose else w
  if button = ButtonRef.tearOutButton then w1.doTearOut (-1, -1) else some w1

/-- `OverlayWrapper::mouseDown`. -/
def mouseDown (w : OverlayWrapper) (e : MouseEvent) : OverlayWrapper :=
  if w.isTornOut then w
  else
    match w.getPrimaryChildAsOverlayComponent with
    | some c =>
      if c.canMoveAround then
        { w with
          isDragging := true
          distanceFromCornerToMouseDown :=
            (sub binary32 e.globalPosition.1 (ofInt binary32 w.bounds.x),
              sub binary32 e.globalPosition.2 (ofInt binary32 w.bounds.y))
          calls := w.calls ++ [Call.repaint] }
      else w
    | none => w

/-- `OverlayWrapper::mouseDoubleClick`. -/
def mouseDoubleClick (w : OverlayWrapper) (_e : MouseEvent) : OverlayWrapper :=
  if w.isTornOut then w
  else
    match w.getPrimaryChildAsOverlayComponent with
    | some c =>
      if c.canMoveAround && w.editor.isSome then
        let p := c.defaultLocation
        let b := w.bounds
        let q : Rectangle := ⟨p.1, p.2, b.w, b.h⟩
        let w1 := w.setBounds q
        { w1 with
          calls := w1.calls ++ [Call.updateUserDefaultValue w1.storage c.moveAroundKey (p.1, p.2)] }
      else w
    | none => w

/-- `OverlayWrapper::mouseUp`. -/
def mouseUp (w : OverlayWrapper) (_e : MouseEvent) : OverlayWrapper :=
  if w.isTornOut then w
  else
    match w.getPrimaryChildAsOverlayComponent with
    | some c =>
      if c.canMoveAround && w.editor.isSome then
        let w1 := { w with isDragging := false, calls := w.calls ++ [Call.repaint] }
        { w1 with
          calls := w1.calls ++
            [Call.updateUserDefaultValue w1.storage c.moveAroundKey (w1.bounds.x, w1.bounds.y)] }
      else w
    | none => w

/-- `OverlayWrapper::mouseDrag`.  A null `getParentComponent()` is dereferenced,
and the clamped position is converted to `int`. -/
def mouseDrag (w : OverlayWrapper) (e : MouseEvent) : Option OverlayWrapper :=
  if w.isTornOut then some w
  else
    match w.getPrimaryChildAsOverlayComponent with
    | some c =>
      if c.canMoveAround then
        let gp := e.globalPosition
        let newTopLeft : FloatVal × FloatVal :=
          (sub binary32 gp.1 w.distanceFromCornerToMouseDown.1,
            sub binary32 gp.2 w.distanceFromCornerToMouseDown.2)
        let x1 := stdMax (FloatVal.finite 0 0) newTopLeft.1
        let y1 := stdMax (FloatVal.finite 0 0) newTopLeft.2
        match w.parent with
        | none => none
        | some par =>
          let pw := mul binary32 (FloatVal.finite 1 0) (ofInt binary32 par.width)
          let ph := mul binary32 (FloatVal.finite 1 0) (ofInt binary32 par.height)
          let x2 := stdMin x1 (sub binary32 pw (ofInt binary32 w.bounds.w))
          let y2 := stdMin y1 (sub binary32 ph (ofInt binary32 w.bounds.h))
          let b := w.bounds
          match toInt32 x2, toInt32 y2 with
          | some qx, some qy => some (w.setBounds ⟨qx, qy, b.w, b.h⟩)
          | _, _ => none
      else some w
    | none => some w

/-- `OverlayWrapper::onSkinChanged`. -/
def onSkinChanged (w : OverlayWrapper) : OverlayWrapper :=
  match w.primaryChild with
  | some child =>
    if child.skinConsumer then
      { w with
        primaryChild := some { child with skin := w.skin }
        calls := w.calls ++ [Call.setSkin w.skin] }
    else w
  | none => w

/-- A wrapper of size 200 by 100 at (10, 10) inside a parent of size 800 by 600,
holding a movable overlay, with a press recorded at distance (5, 5) from its
corner. -/
def dragSample : OverlayWrapper :=
  { default with
    bounds := ⟨10, 10, 200, 100⟩
    parent := some ⟨false, 800, 600⟩
    editor := some ⟨FloatVal.finite 100 0⟩
    storage := some 1
    primaryChild :=
      some ⟨⟨2, 16, 196, 82⟩, none, true, some ⟨true, 7, (30, 40), "Overlay"⟩, false, none⟩
    distanceFromCornerToMouseDown := (FloatVal.finite 5 0, FloatVal.finite 5 0) }

/-- A wrapper of size 1 by 1 at the origin of a parent 20000000 wide and 600
high, holding a movable overlay. -/
def wideSample : OverlayWrapper :=
  { default with
    bounds := ⟨0, 0, 1, 1⟩
    parent := some ⟨false, 20000000, 600⟩
    primaryChild :=
      some ⟨⟨0, 0, 1, 1⟩, none, true, some ⟨true, 7, (30, 40), "Overlay"⟩, false, none⟩ }

/-- The operations of the wrapper that run after construction. -/
inductive Op where
  | addAndTakeOwnership (c : Option Child)
  | buttonClicked (button : ButtonRef)
  | doTearOut (showAt : Int × Int)
  | doTearIn
  | mouseDown (e : MouseEvent)
  | mouseDrag (e : MouseEvent)
  | mouseUp (e : MouseEvent)
  | mouseDoubleClick (e : MouseEvent)
  | onSkinChanged
deriving DecidableEq, Repr

/-- Runs one operation; `none` when it dereferences a null pointer. -/
def step (op : Op) (w : OverlayWrapper) : Option OverlayWrapper :=
  match op with
  | Op.addAndTakeOwnership c => w.addAndTakeOwnership c
  | Op.buttonClicked b => w.buttonClicked b
  | Op.doTearOut showAt => w.doTearOut showAt
  | Op.doTearIn => w.doTearIn
  | Op.mouseDown e => some (w.mouseDown e)
  | Op.mouseDrag e => w.mouseDrag e
  | Op.mouseUp e => some (w.mouseUp e)
  | Op.mouseDoubleClick e => some (w.mouseDoubleClick e)
  | Op.onSkinChanged => some w.onSkinChanged

/-- The calls in a log that are made with the `SurgeStorage` pointer: pointer,
key and stored pair of each `updateUserDefaultValue`. -/
def storageWrites (cs : List Call) : List (Option Nat × Nat × (Int × Int)) :=
  cs.filterMap (fun c =>
    match c with
    | Call.updateUserDefaultValue s k v => some (s, k, v)
    | _ => none)

/-- The calls of `w1` extend those of `w` without a call on the storage pointer. -/
def Quiet (w w1 : OverlayWrapper) : Prop :=
  ∃ extra, w1.calls = w.calls ++ extra ∧ storageWrites extra = []

/-- Width and height of the wrapper are not negative: what
`juce::Component::setBounds` guarantees for every component. -/
def SizeNonneg (w : OverlayWrapper) : Prop :=
  0 ≤ w.bounds.w ∧ 0 ≤ w.bounds.h

instance (w : OverlayWrapper) : Decidable w.SizeNonneg := by
  unfold SizeNonneg
  infer_instance

end OverlayWrapper

end Overlays
end Surge

/-! ## The effect adapter of `FloatyDelayEffect.h`

The header declares `init_ctrltypes`, `init_default_values`, `group_label`,
`group_label_ypos` and `handleStreamingMismatches`; their bodies and the adapter
base class `SurgeSSTFXBase` are not part of the sources.  The definitions below
follow the specification (sections 3, 4 and 7).  Parameter values are exact
rationals. -/

namespace FloatyDelayEffect

/-- Modelled from the spec: the Parameter Descriptor of section 3 (the descriptor
table that `init_ctrltypes` fills is missing).  The stable id of a descriptor is
its position in the table, since the value array is dense and indexed by id. -/
structure ParameterDescriptor where
  name : String
  minValue : ℚ
  maxValue : ℚ
  defaultValue : ℚ
  groupId : Int
deriving DecidableEq, Repr

/-- Modelled from the spec: the Parameter Group of section 3 (the group metadata
behind `group_label` and `group_label_ypos` is missing): id, display label and
vertical position hint. -/
structure ParameterGroup where
  id : Int
  label : String
  ypos : Int
deriving DecidableEq, Repr

/-- Modelled from the spec: the Effect Instance of section 3 (the parameter
storage of the adapter is missing): the dense array of current parameter values,
indexed by descriptor id. -/
structure EffectInstance where
  values : List ℚ
deriving DecidableEq, Repr

/-- Modelled from the spec: the Patch Record of section 3 (the patch loader is
missing): the ordered (parameter id, raw stored value) pairs and the Streaming
Revision Tag, which may be absent. -/
structure PatchRecord where
  pairs : List (Nat × ℚ)
  tag : Option Nat

/-- Modelled from the spec: a migration rule of section 4.4 (the body of
`handleStreamingMismatches` is missing).  `revision` is the revision that
changed the encoding: the rule applies to records written before it.  `rewrite`
rescales, remaps, synthesizes or drops (id, value) pairs. -/
structure MigrationRule where
  revision : Nat
  rewrite : List (Nat × ℚ) → List (Nat × ℚ)

/-- Modelled from the spec: the static rule tables of the Streaming Migration
Engine of section 4.4 (missing from the sources) and the oldest known revision,
which a record without a tag is taken to have. -/
structure MigrationEngine where
  oldestRevision : Nat
  rules : List MigrationRule

/-- Modelled from the spec: `defaultsFor` of section 4.1 (missing from the
sources), the canonical default vector of a descriptor table. -/
def defaultsFor (table : List ParameterDescriptor) : List ℚ :=
  table.map (fun d => d.defaultValue)

/-- Modelled from the spec: a read of the value stored under a descriptor id
(the parameter storage is missing); `none` when the id has no slot. -/
def read (inst : EffectInstance) (id : Nat) : Option ℚ :=
  inst.values[id]?

/-- Modelled from the spec: the loop of `init_default_values` (body missing),
which writes the default of each descriptor into the slot of its id, starting at
id `id`. -/
def writeDefaults : List ParameterDescriptor → Nat → List ℚ → List ℚ
  | [], _, vals => vals
  | d :: ds, id, vals => writeDefaults ds (id + 1) (vals.set id d.defaultValue)

/-- Modelled from the spec: `init_default_values` (body missing): "writes the
canonical defaults into a fresh Effect Instance's value array" (section 4.3). -/
def init_default_values (table : List ParameterDescriptor) (inst : EffectInstance) :
    EffectInstance :=
  { values := writeDefaults table 0 inst.values }

/-- Modelled from the spec: instantiation of an effect slot (missing from the
sources): a value array as long as the descriptor table, then
`init_default_values`. -/
def instantiate (table : List ParameterDescriptor) : EffectInstance :=
  init_default_values table { values := List.replicate table.length 0 }

/-- Modelled from the spec: `group_label` (body missing), section 4.2: the label
of a known group; for an unknown group id a debug build stops (`none`) and a
release build falls back to the label "Other". -/
def group_label (debugBuild : Bool) (groups : List ParameterGroup) (id : Int) : Option String :=
  match groups.find? (fun g => g.id == id) with
  | some g => some g.label
  | none => if debugBuild then none else some "Other"

/-- Modelled from the spec: the clamp of a value into the declared range of its
descriptor (sections 4.4 and 7; missing from the sources). -/
def clampToRange (d : ParameterDescriptor) (v : ℚ) : ℚ :=
  max d.minValue (min d.maxValue v)

/-- Modelled from the spec: a host parameter write (sections 6 and 7; missing from
the sources): the value is clamped into the range of the descriptor and stored
in its slot; a write to an unknown id changes nothing. -/
def hostWrite (table : List ParameterDescriptor) (inst : EffectInstance) (id : Nat) (v : ℚ) :
    EffectInstance :=
  match table[id]? with
  | some d => { values := inst.values.set id (clampToRange d v) }
  | none => inst

/-- Modelled from the spec: step 2 of section 4.4, Classify (missing from the
sources): the rules for the revision range the tag falls into, in revision
order.  A tag newer than the current revision gets no rule. -/
def classify (engine : MigrationEngine) (tag current : Nat) : List MigrationRule :=
  if current < tag then []
  else
    (engine.rules.filter
      (fun r => decide (tag < r.revision) && decide (r.revision ≤ current))).insertionSort
      (fun a b => a.revision ≤ b.revision)

/-- Modelled from the spec: step 3 of section 4.4, Rewrite (missing from the
sources): the rules are applied one after the other. -/
def rewrite (rules : List MigrationRule) (pairs : List (Nat × ℚ)) : List (Nat × ℚ) :=
  rules.foldl (fun ps r => r.rewrite ps) pairs

/-- Modelled from the spec: step 4 of section 4.4, Fill defaults (missing from the
sources): for each descriptor id, from `id` on, the value the pairs hold for it
or else its canonical default. -/
def fillDefaults : List ParameterDescriptor → Nat → List (Nat × ℚ) → List ℚ
  | [], _, _ => []
  | d :: ds, id, pairs =>
    ((List.lookup id pairs).getD d.defaultValue) :: fillDefaults ds (id + 1) pairs

/-- Modelled from the spec: step 5 of section 4.4, Clamp (missing from the
sources): every value is clamped into the range of its descriptor. -/
def clampAll : List ParameterDescriptor → List ℚ → List ℚ
  | d :: ds, v :: vs => clampToRange d v :: clampAll ds vs
  | _, _ => []

/-- Modelled from the spec: the Streaming Migration Engine of section 4.4 (missing
from the sources), steps 1 to 5: parse the tag, classify, rewrite, fill defaults,
clamp.  The result is the array to install. -/
def migrate (engine : MigrationEngine) (table : List ParameterDescriptor) (current : Nat)
    (record : PatchRecord) : List ℚ :=
  let tag := record.tag.getD engine.oldestRevision
  let rules := classify engine tag current
  let rewritten := rewrite rules record.pairs
  clampAll table (fillDefaults table 0 rewritten)

/-- Modelled from the spec: a patch load (section 4.4, step 6, Install; missing from
the sources): the migrated array replaces the value array as a whole. -/
def loadPatch (engine : MigrationEngine) (table : List ParameterDescriptor) (current : Nat)
    (record : PatchRecord) : EffectInstance :=
  { values := migrate engine table current record }

/-- Modelled from the spec: the Patch Record saved from an Effect Instance (section
3; missing from the sources): each value under its id, tagged with the revision. -/
def save (inst : EffectInstance) (revision : Nat) : PatchRecord :=
  { pairs := inst.values.enum, tag := some revision }

/-- Modelled from the spec: `handleStreamingMismatches` (body missing): the values
held by the instance, read as written at `streamingRevision`, go through the
Streaming Migration Engine of section 4.4 and are installed. -/
def handleStreamingMismatches (engine : MigrationEngine) (table : List ParameterDescriptor)
    (inst : EffectInstance) (streamingRevision currentSynthStreamingRevision : Nat) :
    EffectInstance :=
  loadPatch engine table currentSynthStreamingRevision (save inst streamingRevision)

/-- Modelled from the spec: what can happen to an Effect Instance between two
render blocks (sections 3 and 5; missing from the sources): a host write, a reset
to default, a patch load, a streaming migration in place. -/
inductive Event where
  | hostWrite (id : Nat) (v : ℚ)
  | resetToDefault
  | loadPatch (record : PatchRecord)
  | handleStreamingMismatches (streamingRevision : Nat)

/-- Modelled from the spec: the effect of one event on the instance (the host
glue that dispatches these calls is missing from the sources). -/
def applyEvent (engine : MigrationEngine) (table : List ParameterDescriptor) (current : Nat)
    (inst : EffectInstance) (ev : Event) : EffectInstance :=
  match ev with
  | Event.hostWrite id v => hostWrite table inst id v
  | Event.resetToDefault => init_default_values table inst
  | Event.loadPatch record => loadPatch engine table current record
  | Event.handleStreamingMismatches rev => handleStreamingMismatches engine table inst rev current

/-- Modelled from the spec: the instance the render path sees after
instantiation and a sequence of events (section 5; missing from the sources).
Each event is installed as a whole before the next render block. -/
def run (engine : MigrationEngine) (table : List ParameterDescriptor) (current : Nat)
    (events : List Event) : EffectInstance :=
  events.foldl (applyEvent engine table current) (instantiate table)

/-- Modelled from the spec: a descriptor table is well formed when every range
is a range (`minValue ≤ maxValue`) and every default lies in its range. -/
def WellFormed (table : List ParameterDescriptor) : Prop :=
  ∀ d ∈ table, d.minValue ≤ d.maxValue ∧ d.minValue ≤ d.defaultValue ∧
    d.defaultValue ≤ d.maxValue

/-- Modelled from the spec: the Effect Instance invariant of section 3: the array
is as long as the table and every slot holds a value within the declared range
of its descriptor. -/
def Invariant (table : List ParameterDescriptor) (inst : EffectInstance) : Prop :=
  inst.values.length = table.length ∧
    ∀ (id : Nat) (d : ParameterDescriptor) (v : ℚ),
      table[id]? = some d → inst.values[id]? = some v → d.minValue ≤ v ∧ v ≤ d.maxValue

instance (table : List ParameterDescriptor) : Decidable (WellFormed table) := by
  unfold WellFormed
  infer_instance

/-- A table of two controls, both ranging over [0, 1]. -/
def sampleTable : List ParameterDescriptor :=
  [⟨"Time", 0, 1, 1 / 2, 0⟩, ⟨"Mix", 0, 1, 1, 3⟩]

/-- An engine with one rule, introduced at revision 2, that doubles every value. -/
def sampleEngine : MigrationEngine :=
  { oldestRevision := 1
    rules := [⟨2, fun ps => ps.map (fun p => (p.1, p.2 * 2))⟩] }

/-- The groups of the sample effect. -/
def sampleGroups : List ParameterGroup :=
  [⟨0, "Delay", 1⟩, ⟨3, "Output", 9⟩]

end FloatyDelayEffect

/-! ## Theorems about `OverlayWrapper` -/

namespace Surge
namespace Overlays
namespace OverlayWrapper

open juce ieee

theorem wrapInt_eq {v : Int} (h : IsInt v) : wrapInt v = v := by
  unfold IsInt at h
  unfold wrapInt
  omega

theorem ofInt_small {n : Int} (h0 : 0 ≤ n) (h : n ≤ 16777216) :
    ofInt binary32 n = FloatVal.finite n 0 := by
  unfold ofInt roundDyadic
  have h1 : n.natAbs ≤ 2 ^ binary32.prec := by
    have : (2 : Nat) ^ binary32.prec = 16777216 := by decide
    rw [this]
    omega
  have h2 : binary32.emin - ((binary32.prec : Int) - 1) ≤ 0 := by decide
  have h3 : (0 : Int) < binary32.emax - ((binary32.prec : Int) - 1) := by decide
  rw [if_pos ⟨h1, h2, h3⟩]

/-- The upper clamp of `mouseDrag`: parent size minus wrapper size, both at most
2 ^ 24, is computed without rounding. -/
theorem upperClamp_exact {p s : Int} (hs : 0 ≤ s) (hsp : s ≤ p) (hp : p ≤ 16777216) :
    sub binary32 (mul binary32 (FloatVal.finite 1 0) (ofInt binary32 p)) (ofInt binary32 s) =
      FloatVal.finite (p - s) 0 := by
  rw [ofInt_small (le_trans hs hsp) hp, ofInt_small hs (le_trans hsp hp)]
  have hmul : mul binary32 (FloatVal.finite 1 0) (FloatVal.finite p 0) = FloatVal.finite p 0 := by
    have := ofInt_small (le_trans hs hsp) hp
    unfold ofInt at this
    simp only [mul, one_mul, add_zero]
    exact this
  rw [hmul]
  have hsub := ofInt_small (n := p - s) (by omega) (by omega)
  unfold ofInt at hsub
  simp only [sub, min_self, sub_self, Int.toNat_zero, pow_zero, mul_one]
  exact hsub

theorem lt_zero_finite (m e : Int) :
    lt (FloatVal.finite 0 0) (FloatVal.finite m e) = decide (0 < m) := by
  simp only [lt, zero_mul]
  have hpos : (0 : Int) < 2 ^ (e - min 0 e).toNat := by positivity
  by_cases hm : 0 < m
  · simp [hm, mul_pos hm hpos]
  · have : m * 2 ^ (e - min 0 e).toNat ≤ 0 :=
      mul_nonpos_of_nonpos_of_nonneg (not_lt.mp hm) (le_of_lt hpos)
    simp [hm, not_lt.mpr this]

/-- Both clamps of `mouseDrag` followed by the conversion to `int`: whatever the
value `r`, the result lies between 0 and the upper bound `u`. -/
theorem clamp_toInt32 (r : FloatVal) (u : Int) (h0 : 0 ≤ u) (hu : u ≤ 2147483647) :
    ∃ t, toInt32 (stdMin (stdMax (FloatVal.finite 0 0) r) (FloatVal.finite u 0)) = some t ∧
      0 ≤ t ∧ t ≤ u := by
  have hzero : toInt32 (stdMin (FloatVal.finite 0 0) (FloatVal.finite u 0)) = some 0 := by
    have : lt (FloatVal.finite u 0) (FloatVal.finite 0 0) = false := by
      simp only [lt, min_self, sub_self, Int.toNat_zero, pow_zero, mul_one, zero_mul,
        decide_eq_false_iff_not, not_lt]
      exact h0
    simp [stdMin, this, toInt32]
  have hupper : toInt32 (FloatVal.finite u 0) = some u := by
    simp only [toInt32, le_refl, if_true, Int.toNat_zero, pow_zero, mul_one]
    rw [if_pos ⟨by omega, hu⟩]
  cases r with
  | nan => exact ⟨0, by simpa [stdMax, lt] using hzero, le_refl _, h0⟩
  | negInf => exact ⟨0, by simpa [stdMax, lt] using hzero, le_refl _, h0⟩
  | posInf => exact ⟨u, by simpa [stdMax, stdMin, lt] using hupper, h0, le_refl _⟩
  | finite m e =>
    by_cases hm : 0 < m
    · have h1 : stdMax (FloatVal.finite 0 0) (FloatVal.finite m e) = FloatVal.finite m e := by
        simp [stdMax, lt_zero_finite, hm]
      rw [h1]
      by_cases h2 : lt (FloatVal.finite u 0) (FloatVal.finite m e) = true
      · exact ⟨u, by simpa [stdMin, h2] using hupper, h0, le_refl _⟩
      · have h3 : stdMin (FloatVal.finite m e) (FloatVal.finite u 0) = FloatVal.finite m e := by
          simp [stdMin, h2]
        rw [h3]
        simp only [lt, decide_eq_true_eq, not_lt] at h2
        by_cases he : 0 ≤ e
        · have hmin : min 0 e = 0 := min_eq_left he
          simp only [hmin, sub_zero, sub_self, Int.toNat_zero, pow_zero, mul_one] at h2
          have hpos : (0 : Int) < 2 ^ e.toNat := by positivity
          refine ⟨m * 2 ^ e.toNat, ?_, le_of_lt (mul_pos hm hpos), h2⟩
          simp only [toInt32, he, if_true]
          rw [if_pos ⟨by have := mul_pos hm hpos; omega, by omega⟩]
        · have he' : e < 0 := not_le.mp he
          have hmin : min 0 e = e := min_eq_right (le_of_lt he')
          simp only [hmin, sub_self, Int.toNat_zero, pow_zero, mul_one, zero_sub] at h2
          have hpos : (0 : Int) < 2 ^ (-e).toNat := by positivity
          have hq : Int.tdiv m (2 ^ (-e).toNat) = m / 2 ^ (-e).toNat :=
            Int.tdiv_eq_ediv (le_of_lt hm) (le_of_lt hpos)
          have hq0 : 0 ≤ m / 2 ^ (-e).toNat := Int.ediv_nonneg (le_of_lt hm) (le_of_lt hpos)
          have hq1 : m / 2 ^ (-e).toNat ≤ u := Int.ediv_le_of_le_mul hpos h2
          refine ⟨m / 2 ^ (-e).toNat, ?_, hq0, hq1⟩
          simp only [toInt32, he, if_false, hq]
          rw [if_pos ⟨by omega, by omega⟩]
    · have h1 : stdMax (FloatVal.finite 0 0) (FloatVal.finite m e) = FloatVal.finite 0 0 := by
        simp [stdMax, lt_zero_finite, hm]
      rw [h1]
      exact ⟨0, hzero, le_refl _, h0⟩

theorem storageWrites_append (a b : List Call) :
    storageWrites (a ++ b) = storageWrites a ++ storageWrites b := by
  simp [storageWrites, List.filterMap_append]

theorem Quiet.refl (w : OverlayWrapper) : Quiet w w := ⟨[], by simp, rfl⟩

theorem Quiet.of_calls_eq {w w1 : OverlayWrapper} (h : w1.calls = w.calls) : Quiet w w1 :=
  ⟨[], by simp [h], rfl⟩

theorem Quiet.trans {a b c : OverlayWrapper} (h1 : Quiet a b) (h2 : Quiet b c) : Quiet a c := by
  obtain ⟨e1, h1, s1⟩ := h1
  obtain ⟨e2, h2, s2⟩ := h2
  exact ⟨e1 ++ e2, by rw [h2, h1, List.append_assoc], by rw [storageWrites_append, s1, s2]; rfl⟩

theorem quiet_onClose (w : OverlayWrapper) : Quiet w w.onClose := by
  refine ⟨[Call.closeOverlay], ?_, rfl⟩
  unfold onClose
  dsimp only
  split <;> rfl

theorem quiet_supress {w w1 : OverlayWrapper} (h : w.supressInteriorDecoration = some w1) :
    Quiet w w1 := by
  unfold supressInteriorDecoration at h
  cases hc : w.primaryChild with
  | none => simp [hc] at h
  | some c =>
    simp only [hc, Option.some.injEq] at h
    subst h
    exact Quiet.of_calls_eq rfl

theorem zoomForTearOut_calls {w w5 : OverlayWrapper} {child child2 : Child}
    {ed : SurgeGUIEditor} {width2 height2 : Int}
    (h : zoomForTearOut w child ed = some (width2, height2, w5, child2)) :
    w5.calls = w.calls ∧ child2.overlay = child.overlay := by
  unfold zoomForTearOut at h
  dsimp only at h
  split at h
  · simp only [Option.some.injEq, Prod.mk.injEq] at h
    obtain ⟨_, _, h3, h4⟩ := h
    subst h3 h4
    exact ⟨rfl, rfl⟩
  · exact absurd h (by simp)

theorem quiet_doTearOut {w w1 : OverlayWrapper} {showAt : Int × Int}
    (h : w.doTearOut showAt = some w1) : Quiet w w1 := by
  unfold doTearOut at h
  cases hc : w.primaryChild with
  | none => simp [hc] at h
  | some c =>
    cases hp : w.parent with
    | none => simp [hc, hp] at h
    | some p =>
      simp only [hc, hp] at h
      split at h
      · exact absurd h (by simp)
      · rename_i width2 height2 w5 child2 hscaled
        have h5 : w5.calls = w.calls := by
          cases he : w.editor with
          | none =>
            simp only [he, Option.some.injEq, Prod.mk.injEq] at hscaled
            obtain ⟨_, _, h3, _⟩ := hscaled
            subst h3
            rfl
          | some ed =>
            simp only [he] at hscaled
            exact (zoomForTearOut_calls hscaled).1
        split at h
        · exact absurd h (by simp)
        · rename_i w8 h8
          simp only [Option.some.injEq] at h
          subst h
          have q8 := quiet_supress h8
          refine Quiet.trans ?_ (Quiet.trans q8 (Quiet.of_calls_eq rfl))
          cases ho : child2.overlay with
          | none => exact Quiet.of_calls_eq (by simp [h5])
          | some oc => exact ⟨[Call.onTearOutChanged true], by simp [h5], rfl⟩

theorem quiet_doTearIn {w w1 : OverlayWrapper} (h : w.doTearIn = some w1) : Quiet w w1 := by
  unfold doTearIn at h
  split at h
  · simp only [Option.some.injEq] at h
    subst h
    exact quiet_onClose w
  · cases hc : w.primaryChild with
    | none => simp [hc] at h
    | some c =>
      cases ho : c.overlay with
      | none =>
        simp only [hc, ho, Option.some.injEq] at h
        subst h
        exact Quiet.of_calls_eq rfl
      | some oc =>
        simp only [hc, ho, Option.some.injEq] at h
        subst h
        exact ⟨[Call.onTearOutChanged false], rfl, rfl⟩

theorem quiet_addAndTakeOwnership {w w1 : OverlayWrapper} {c : Option Child}
    (h : w.addAndTakeOwnership c = some w1) : Quiet w w1 := by
  unfold addAndTakeOwnership at h
  cases c with
  | none => simp at h
  | some child =>
    simp only [Option.some.injEq] at h
    subst h
    exact Quiet.of_calls_eq rfl

theorem quiet_buttonClicked {w w1 : OverlayWrapper} {b : ButtonRef}
    (h : w.buttonClicked b = some w1) : Quiet w w1 := by
  unfold buttonClicked at h
  cases b with
  | closeButton =>
    simp only [if_true, reduceCtorEq, if_false, Option.some.injEq] at h
    subst h
    exact quiet_onClose w
  | tearOutButton =>
    simp only [if_true, reduceCtorEq, if_false] at h
    exact quiet_doTearOut h
  | other =>
    simp only [reduceCtorEq, if_false, Option.some.injEq] at h
    subst h
    exact Quiet.refl w

theorem quiet_mouseDown (w : OverlayWrapper) (e : MouseEvent) : Quiet w (w.mouseDown e) := by
  unfold mouseDown
  split
  · exact Quiet.refl w
  · split
    · split
      · exact ⟨[Call.repaint], rfl, rfl⟩
      · exact Quiet.refl w
    · exact Quiet.refl w

theorem quiet_mouseDrag {w w1 : OverlayWrapper} {e : MouseEvent}
    (h : w.mouseDrag e = some w1) : Quiet w w1 := by
  unfold mouseDrag at h
  split at h
  · simp only [Option.some.injEq] at h
    subst h
    exact Quiet.refl w
  · split at h
    · split at h
      · split at h
        · simp at h
        · dsimp only at h
          split at h
          · simp only [Option.some.injEq] at h
            subst h
            exact Quiet.of_calls_eq rfl
          · simp at h
      · simp only [Option.some.injEq] at h
        subst h
        exact Quiet.refl w
    · simp only [Option.some.injEq] at h
      subst h
      exact Quiet.refl w

theorem quiet_onSkinChanged (w : OverlayWrapper) : Quiet w w.onSkinChanged := by
  unfold onSkinChanged
  split
  · split
    · exact ⟨[Call.setSkin w.skin], rfl, rfl⟩
    · exact Quiet.refl w
  · exact Quiet.refl w

theorem sizeNonneg_setBounds (w : OverlayWrapper) (r : Rectangle) : (w.setBounds r).SizeNonneg :=
  ⟨le_max_left _ _, le_max_left _ _⟩

theorem sizeNonneg_of_bounds_eq {w w1 : OverlayWrapper} (h : w1.bounds = w.bounds)
    (hs : w.SizeNonneg) : w1.SizeNonneg := by
  unfold SizeNonneg at *
  rw [h]
  exact hs

theorem sizeNonneg_onClose {w : OverlayWrapper} (hs : w.SizeNonneg) : w.onClose.SizeNonneg := by
  refine sizeNonneg_of_bounds_eq ?_ hs
  unfold onClose
  dsimp only
  split <;> rfl

theorem sizeNonneg_supress {w w1 : OverlayWrapper} (h : w.supressInteriorDecoration = some w1) :
    w1.SizeNonneg := by
  unfold supressInteriorDecoration at h
  cases hc : w.primaryChild with
  | none => simp [hc] at h
  | some c =>
    simp only [hc, Option.some.injEq] at h
    subst h
    exact ⟨le_max_left _ _, le_max_left _ _⟩

theorem sizeNonneg_doTearOut {w w1 : OverlayWrapper} {showAt : Int × Int}
    (h : w.doTearOut showAt = some w1) : w1.SizeNonneg := by
  unfold doTearOut at h
  cases hc : w.primaryChild with
  | none => simp [hc] at h
  | some c =>
    cases hp : w.parent with
    | none => simp [hc, hp] at h
    | some p =>
      simp only [hc, hp] at h
      split at h
      · exact absurd h (by simp)
      · split at h
        · exact absurd h (by simp)
        · rename_i w8 h8
          simp only [Option.some.injEq] at h
          subst h
          have s8 := sizeNonneg_supress h8
          exact s8

/-- Both constructors give a wrapper of size zero, and every operation keeps
width and height of the wrapper from becoming negative. -/
theorem sizeNonneg_step :
    default.SizeNonneg ∧ (∀ cb, (modal cb).SizeNonneg) ∧
    ∀ (op : Op) (w w1 : OverlayWrapper), step op w = some w1 → w.SizeNonneg → w1.SizeNonneg := by
  refine ⟨⟨le_refl _, le_refl _⟩, fun _ => ⟨le_refl _, le_refl _⟩, ?_⟩
  intro op w w1 h hs
  cases op with
  | addAndTakeOwnership c =>
    simp only [step] at h
    unfold addAndTakeOwnership at h
    cases c with
    | none => simp at h
    | some child =>
      simp only [Option.some.injEq] at h
      subst h
      exact sizeNonneg_of_bounds_eq rfl hs
  | buttonClicked b =>
    simp only [step] at h
    unfold buttonClicked at h
    cases b with
    | closeButton =>
      simp only [if_true, reduceCtorEq, if_false, Option.some.injEq] at h
      subst h
      exact sizeNonneg_onClose hs
    | tearOutButton =>
      simp only [if_true, reduceCtorEq, if_false] at h
      exact sizeNonneg_doTearOut h
    | other =>
      simp only [reduceCtorEq, if_false, Option.some.injEq] at h
      subst h
      exact hs
  | doTearOut showAt => exact sizeNonneg_doTearOut h
  | doTearIn =>
    simp only [step] at h
    unfold doTearIn at h
    split at h
    · simp only [Option.some.injEq] at h
      subst h
      exact sizeNonneg_onClose hs
    · cases hc : w.primaryChild with
      | none => simp [hc] at h
      | some c =>
        cases ho : c.overlay with
        | none =>
          simp only [hc, ho, Option.some.injEq] at h
          subst h
          exact ⟨le_max_left _ _, le_max_left _ _⟩
        | some oc =>
          simp only [hc, ho, Option.some.injEq] at h
          subst h
          exact ⟨le_max_left _ _, le_max_left _ _⟩
  | mouseDown e =>
    simp only [step, Option.some.injEq] at h
    subst h
    refine sizeNonneg_of_bounds_eq ?_ hs
    unfold mouseDown
    split
    · rfl
    · split
      · split <;> rfl
      · rfl
  | mouseDrag e =>
    simp only [step] at h
    unfold mouseDrag at h
    split at h
    · simp only [Option.some.injEq] at h
      subst h
      exact hs
    · split at h
      · split at h
        · split at h
          · simp at h
          · dsimp only at h
            split at h
            · simp only [Option.some.injEq] at h
              subst h
              exact sizeNonneg_setBounds _ _
            · simp at h
        · simp only [Option.some.injEq] at h
          subst h
          exact hs
      · simp only [Option.some.injEq] at h
        subst h
        exact hs
  | mouseUp e =>
    simp only [step, Option.some.injEq] at h
    subst h
    refine sizeNonneg_of_bounds_eq ?_ hs
    unfold mouseUp
    split
    · rfl
    · split
      · split <;> rfl
      · rfl
  | mouseDoubleClick e =>
    simp only [step, Option.some.injEq] at h
    subst h
    unfold mouseDoubleClick
    split
    · exact hs
    · split
      · split
        · exact ⟨le_max_left _ _, le_max_left _ _⟩
        · exact hs
      · exact hs
  | onSkinChanged =>
    simp only [step, Option.some.injEq] at h
    subst h
    refine sizeNonneg_of_bounds_eq ?_ hs
    unfold onSkinChanged
    split
    · split <;> rfl
    · rfl

/-- C6. In every wrapper state in which `isTornOut()` is false or
`parentBeforeTearOut` is null, `doTearIn()` returns after `onClose()` alone: the
call log grows by exactly one `closeOverlay`, `tearOutParent` is null afterwards,
the bounds of the wrapper, the primary child (bounds and transform included),
`hasInteriorDec` and `parentBeforeTearOut` are unchanged, and the wrapper gets no
new parent (it keeps the one it had, or loses the destroyed window). -/
theorem doTearIn_fallback (w : OverlayWrapper)
    (h : w.isTornOut = false ∨ w.parentBeforeTearOut = none) :
    ∃ w1, w.doTearIn = some w1 ∧
      w1.calls = w.calls ++ [Call.closeOverlay] ∧
      w1.tearOutParent = none ∧
      w1.bounds = w.bounds ∧
      w1.primaryChild = w.primaryChild ∧
      w1.hasInteriorDec = w.hasInteriorDec ∧
      w1.parentBeforeTearOut = w.parentBeforeTearOut ∧
      (w1.parent = w.parent ∨ w1.parent = none) := by
  have hc : (!w.isTornOut || w.parentBeforeTearOut.isNone) = true := by
    rcases h with h | h
    · simp [h]
    · simp [h]
  refine ⟨w.onClose, ?_, ?_⟩
  · unfold doTearIn
    rw [if_pos hc]
  · unfold onClose isTornOut
    cases ht : w.tearOutParent with
    | none => simp [ht]
    | some dw =>
      cases hp : w.parent with
      | none => simp [ht, hp]
      | some p =>
        by_cases hw : p.isTearOutWindow = true
        · simp [ht, hp, hw]
        · simp [ht, hp, hw]

/-- Witness for C6: a torn-out wrapper whose `parentBeforeTearOut` is null. -/
theorem doTearIn_fallback_witness :
    ∃ w1, ({ default with
              tearOutParent := some ⟨"Tear Out", 10, 10, true, none, true⟩ } :
            OverlayWrapper).doTearIn = some w1 ∧
      w1.calls = [] ++ [Call.closeOverlay] ∧
      w1.tearOutParent = none ∧
      w1.bounds = ⟨0, 0, 0, 0⟩ ∧
      w1.primaryChild = none ∧
      w1.hasInteriorDec = true ∧
      w1.parentBeforeTearOut = none ∧
      (w1.parent = none ∨ w1.parent = none) :=
  doTearIn_fallback
    { default with tearOutParent := some ⟨"Tear Out", 10, 10, true, none, true⟩ }
    (Or.inr rfl)

/-- C7 (as amended).  The modal constructor sets `isModal` and `componentBounds`,
the default constructor leaves `isModal` false, and `sp` is `componentBounds`
when `isModal` and the local bounds otherwise.  `addAndTakeOwnership` of a child
sets `hasInteriorDec`.  When the fields of `sp` are `int` values and the `int`
arithmetic does not overflow (`sp.x + 2` and `sp.y + 16` at most INT_MAX,
`sp.w - 4` and `sp.h - 4` at least INT_MIN), the child gets the bounds
`x = sp.x + 2`, `y = sp.y + 16`, `width = max 0 (sp.w - 4)`,
`height = max 0 (max 0 (sp.h - 4) - 14)`.  When moreover `sp` is at least 4 wide
and 18 high and its right and bottom edges `sp.x + sp.w`, `sp.y + sp.h` are at
most INT_MAX, the child lies inside `sp` and does not intersect the title strip
`sp.withHeight (titlebarSize + margin)`. -/
theorem addAndTakeOwnership_layout (w : OverlayWrapper) (c : Child) (cb : Rectangle) :
    (modal cb).isModal = true ∧ (modal cb).componentBounds = cb ∧
    (modal cb).sp = cb ∧ default.isModal = false ∧
    w.sp = (if w.isModal then w.componentBounds else ⟨0, 0, w.bounds.w, w.bounds.h⟩) ∧
    ∃ w1 c1, w.addAndTakeOwnership (some c) = some w1 ∧
      w1.primaryChild = some c1 ∧
      w1.hasInteriorDec = true ∧
      (w.sp.IsInt → w.sp.x + 2 ≤ 2147483647 → w.sp.y + 16 ≤ 2147483647 →
        -2147483648 ≤ w.sp.w - 4 → -2147483648 ≤ w.sp.h - 4 →
        c1.bounds =
          ⟨w.sp.x + 2, w.sp.y + 16, max 0 (w.sp.w - 4), max 0 (max 0 (w.sp.h - 4) - 14)⟩) ∧
      (w.sp.IsInt → 4 ≤ w.sp.w → 18 ≤ w.sp.h →
        w.sp.x + w.sp.w ≤ 2147483647 → w.sp.y + w.sp.h ≤ 2147483647 →
        w.sp.contains c1.bounds = true ∧ c1.bounds.intersects w.titleStrip = false) := by
  refine ⟨rfl, rfl, rfl, rfl, rfl, ?_⟩
  have hq : w.sp.IsInt → w.sp.x + 2 ≤ 2147483647 → w.sp.y + 16 ≤ 2147483647 →
      -2147483648 ≤ w.sp.w - 4 → -2147483648 ≤ w.sp.h - 4 →
      boundsAsSet
        (((w.sp.reduced (wrapInt (2 * margin)) (wrapInt (2 * margin))).withTrimmedBottom
          titlebarSize).translated 0 (wrapInt (titlebarSize + wrapInt (0 * margin)))) =
      ⟨w.sp.x + 2, w.sp.y + 16, max 0 (w.sp.w - 4), max 0 (max 0 (w.sp.h - 4) - 14)⟩ := by
    intro hi hx hy hw hh
    obtain ⟨⟨hx0, hx1⟩, ⟨hy0, hy1⟩, ⟨hw0, hw1⟩, ⟨hh0, hh1⟩⟩ := hi
    simp only [boundsAsSet, Rectangle.reduced, Rectangle.expanded, Rectangle.withTrimmedBottom,
      Rectangle.withHeight, Rectangle.translated, margin, titlebarSize, Rectangle.mk.injEq,
      wrapInt]
    refine ⟨by omega, by omega, by omega, by omega⟩
  have hrun : ∃ w1 c1, w.addAndTakeOwnership (some c) = some w1 ∧
      w1.primaryChild = some c1 ∧ w1.hasInteriorDec = true ∧
      c1.bounds = boundsAsSet
        (((w.sp.reduced (wrapInt (2 * margin)) (wrapInt (2 * margin))).withTrimmedBottom
          titlebarSize).translated 0 (wrapInt (titlebarSize + wrapInt (0 * margin)))) :=
    ⟨_, _, rfl, rfl, rfl, rfl⟩
  obtain ⟨w1, c1, h1, h2, h3, h4⟩ := hrun
  refine ⟨w1, c1, h1, h2, h3, ?_, ?_⟩
  · intro hi hx hy hw hh
    rw [h4]
    exact hq hi hx hy hw hh
  · intro hi hw hh hr hb
    have hi' := hi
    obtain ⟨⟨hx0, hx1⟩, ⟨hy0, hy1⟩, ⟨hw0, hw1⟩, ⟨hh0, hh1⟩⟩ := hi'
    rw [h4, hq hi (by omega) (by omega) (by omega) (by omega)]
    constructor
    · simp only [Rectangle.contains, Bool.and_eq_true, decide_eq_true_eq, wrapInt]
      refine ⟨⟨⟨by omega, by omega⟩, by omega⟩, by omega⟩
    · simp only [Rectangle.intersects, titleStrip, Rectangle.withHeight, margin, titlebarSize,
        Bool.and_eq_false_iff, decide_eq_false_iff_not, wrapInt]
      left; left; left; left; right
      omega

/-- Witness for C7: a modal wrapper over the rectangle (10, 20, 100, 50). -/
theorem addAndTakeOwnership_layout_witness :
    ∃ w1 c1, (modal ⟨10, 20, 100, 50⟩).addAndTakeOwnership
        (some ⟨⟨0, 0, 0, 0⟩, none, false, none, false, none⟩) = some w1 ∧
      w1.primaryChild = some c1 ∧
      c1.bounds = ⟨12, 36, 96, 32⟩ ∧
      (Rectangle.mk 10 20 100 50).contains c1.bounds = true ∧
      c1.bounds.intersects ⟨10, 20, 100, 15⟩ = false := by
  obtain ⟨_, _, _, _, _, w1, c1, h1, h2, _, h4, h5⟩ :=
    addAndTakeOwnership_layout (modal ⟨10, 20, 100, 50⟩)
      ⟨⟨0, 0, 0, 0⟩, none, false, none, false, none⟩ ⟨0, 0, 0, 0⟩
  have h6 := h5 (by decide) (by decide) (by decide) (by decide) (by decide)
  have h7 := h4 (by decide) (by decide) (by decide) (by decide) (by decide)
  exact ⟨w1, c1, h1, h2, h7.trans (by decide), h6.1, h6.2⟩

/-- Counterexample to C7 as stated: the modal wrapper over the rectangle
(INT_MAX, INT_MAX - 20, 100, 50), which is 100 wide and 50 high.  `sp.x + 2`
overflows, the child is placed at `x = -2147483647`, and it does not lie inside
`sp`. -/
theorem addAndTakeOwnership_layout_counterexample :
    (modal ⟨2147483647, 2147483627, 100, 50⟩).sp = ⟨2147483647, 2147483627, 100, 50⟩ ∧
    (Rectangle.mk 2147483647 2147483627 100 50).IsInt ∧
    ((modal ⟨2147483647, 2147483627, 100, 50⟩).addAndTakeOwnership
        (some ⟨⟨0, 0, 0, 0⟩, none, false, none, false, none⟩)).map
      (fun w1 => w1.primaryChild.map (fun c1 => c1.bounds)) =
      some (some ⟨-2147483647, 2147483643, 96, 32⟩) ∧
    (Rectangle.mk (-2147483647) 2147483643 96 32).x ≠ 2147483647 + 2 ∧
    (Rectangle.mk 2147483647 2147483627 100 50).contains ⟨-2147483647, 2147483643, 96, 32⟩ =
      false := by
  decide

/-- C8 (as amended).  A drag on a wrapper that is not torn out, whose primary
child is an `OverlayComponent` that can move around, and whose parent is at
least as wide and as high as the wrapper and at most 16777216 (2 ^ 24) wide and
high, so that the sizes and their differences are exact in `float`:
`mouseDrag` returns, the wrapper keeps its width and height, the new position
is the `int` value of `std::min (std::max (0.f, mouse - distance),
parentSize - size)` on each axis (lower clamp first, upper clamp second), and it
satisfies `0 ≤ x ≤ parentWidth - width` and `0 ≤ y ≤ parentHeight - height`, for
every mouse position and every stored distance, NaN and infinities included.
Width and height of a component are never negative. -/
theorem mouseDrag_stays_inside (w : OverlayWrapper) (e : MouseEvent) (c : OverlayComponent)
    (par : ParentComponent)
    (hT : w.isTornOut = false)
    (hc : w.getPrimaryChildAsOverlayComponent = some c)
    (hm : c.canMoveAround = true)
    (hp : w.parent = some par)
    (hw : w.bounds.w ≤ par.width)
    (hh : w.bounds.h ≤ par.height)
    (hpw : par.width ≤ 16777216)
    (hph : par.height ≤ 16777216)
    (hs : w.SizeNonneg) :
    ∃ w1, w.mouseDrag e = some w1 ∧
      w1.bounds.w = w.bounds.w ∧ w1.bounds.h = w.bounds.h ∧
      toInt32 (stdMin
        (stdMax (FloatVal.finite 0 0)
          (sub binary32 e.globalPosition.1 w.distanceFromCornerToMouseDown.1))
        (sub binary32 (mul binary32 (FloatVal.finite 1 0) (ofInt binary32 par.width))
          (ofInt binary32 w.bounds.w))) = some w1.bounds.x ∧
      toInt32 (stdMin
        (stdMax (FloatVal.finite 0 0)
          (sub binary32 e.globalPosition.2 w.distanceFromCornerToMouseDown.2))
        (sub binary32 (mul binary32 (FloatVal.finite 1 0) (ofInt binary32 par.height))
          (ofInt binary32 w.bounds.h))) = some w1.bounds.y ∧
      0 ≤ w1.bounds.x ∧ w1.bounds.x ≤ par.width - w.bounds.w ∧
      0 ≤ w1.bounds.y ∧ w1.bounds.y ≤ par.height - w.bounds.h := by
  obtain ⟨hs1, hs2⟩ := hs
  have hux := upperClamp_exact hs1 hw hpw
  have huy := upperClamp_exact hs2 hh hph
  obtain ⟨tx, htx, htx0, htx1⟩ :=
    clamp_toInt32 (sub binary32 e.globalPosition.1 w.distanceFromCornerToMouseDown.1)
      (par.width - w.bounds.w) (by omega) (by omega)
  obtain ⟨ty, hty, hty0, hty1⟩ :=
    clamp_toInt32 (sub binary32 e.globalPosition.2 w.distanceFromCornerToMouseDown.2)
      (par.height - w.bounds.h) (by omega) (by omega)
  rw [← hux] at htx
  rw [← huy] at hty
  refine ⟨w.setBounds ⟨tx, ty, w.bounds.w, w.bounds.h⟩, ?_, ?_, ?_, htx, hty,
    htx0, htx1, hty0, hty1⟩
  · unfold mouseDrag
    simp only [hT, hc, hm, hp, if_true, Bool.false_eq_true, if_false, htx, hty]
  · exact max_eq_right hs1
  · exact max_eq_right hs2

/-- Witness for C8: the mouse far to the right of and above the parent. -/
theorem mouseDrag_stays_inside_witness :
    ∃ w1, dragSample.mouseDrag ⟨(FloatVal.finite 1000 0, FloatVal.finite (-50) 0)⟩ = some w1 ∧
      w1.bounds.w = 200 ∧ w1.bounds.h = 100 ∧
      0 ≤ w1.bounds.x ∧ w1.bounds.x ≤ 800 - 200 ∧
      0 ≤ w1.bounds.y ∧ w1.bounds.y ≤ 600 - 100 := by
  obtain ⟨w1, h1, h2, h3, _, _, h6, h7, h8, h9⟩ :=
    mouseDrag_stays_inside dragSample ⟨(FloatVal.finite 1000 0, FloatVal.finite (-50) 0)⟩
      ⟨true, 7, (30, 40), "Overlay"⟩ ⟨false, 800, 600⟩ rfl rfl rfl rfl
      (by decide) (by decide) (by decide) (by decide) ⟨by decide, by decide⟩
  exact ⟨w1, h1, h2, h3, h6, h7, h8, h9⟩

/-- Counterexample to C8 as stated: `wideSample` is 1 wide inside a parent
20000000 wide, it is not torn out and its child can move around.  With the
mouse at x = 30000000 the upper clamp `pw - getWidth()` is 19999999 rounded to
`float`, which is 20000000, and the wrapper lands at x = 20000000, beyond
`parentWidth - width = 19999999`. -/
theorem mouseDrag_stays_inside_counterexample :
    wideSample.isTornOut = false ∧
    (wideSample.getPrimaryChildAsOverlayComponent.map (fun c => c.canMoveAround)) = some true ∧
    wideSample.parent = some ⟨false, 20000000, 600⟩ ∧
    wideSample.bounds.w ≤ 20000000 ∧ wideSample.bounds.h ≤ 600 ∧
    (wideSample.mouseDrag ⟨(FloatVal.finite 30000000 0, FloatVal.finite 0 0)⟩).map
      (fun w1 => w1.bounds) = some ⟨20000000, 0, 1, 1⟩ ∧
    ¬ ((20000000 : Int) ≤ 20000000 - wideSample.bounds.w) := by
  decide

/-- C5. Neither constructor makes a call.  Every operation of the wrapper only
appends calls to the log, and the calls it appends contain no call on the
`SurgeStorage` pointer, with one exception: `mouseUp` and `mouseDoubleClick` on a
wrapper that is not torn out, whose primary child is an `OverlayComponent` with
`getCanMoveAround()` true and whose `editor` is not null, append exactly one
`updateUserDefaultValue`, made with the wrapper's `storage`, the child's
move-around key and the (x, y) position the wrapper has afterwards.  `Call`
lists every call the file makes, and none of them writes a parameter value or
patch state. -/
theorem presentation_frame :
    default.calls = [] ∧ (∀ cb, (modal cb).calls = []) ∧
    ∀ (op : Op) (w w1 : OverlayWrapper), step op w = some w1 →
      ∃ extra, w1.calls = w.calls ++ extra ∧
        (storageWrites extra = [] ∨
          ∃ e c, (op = Op.mouseUp e ∨ op = Op.mouseDoubleClick e) ∧
            w.isTornOut = false ∧
            w.getPrimaryChildAsOverlayComponent = some c ∧ c.canMoveAround = true ∧
            w.editor.isSome = true ∧
            storageWrites extra =
              [(w.storage, c.moveAroundKey, (w1.bounds.x, w1.bounds.y))]) := by
  refine ⟨rfl, fun _ => rfl, ?_⟩
  intro op w w1 h
  have quiet : ∀ (a b : OverlayWrapper), Quiet a b →
      ∃ extra, b.calls = a.calls ++ extra ∧
        (storageWrites extra = [] ∨
          ∃ e c, (op = Op.mouseUp e ∨ op = Op.mouseDoubleClick e) ∧
            a.isTornOut = false ∧
            a.getPrimaryChildAsOverlayComponent = some c ∧ c.canMoveAround = true ∧
            a.editor.isSome = true ∧
            storageWrites extra =
              [(a.storage, c.moveAroundKey, (b.bounds.x, b.bounds.y))]) := by
    intro a b hq
    obtain ⟨extra, h1, h2⟩ := hq
    exact ⟨extra, h1, Or.inl h2⟩
  cases op with
  | addAndTakeOwnership c => exact quiet w _ (quiet_addAndTakeOwnership h)
  | buttonClicked b => exact quiet w _ (quiet_buttonClicked h)
  | doTearOut showAt => exact quiet w _ (quiet_doTearOut h)
  | doTearIn => exact quiet w _ (quiet_doTearIn h)
  | mouseDown e =>
    simp only [step, Option.some.injEq] at h
    subst h
    exact quiet w _ (quiet_mouseDown w e)
  | mouseDrag e => exact quiet w _ (quiet_mouseDrag h)
  | onSkinChanged =>
    simp only [step, Option.some.injEq] at h
    subst h
    exact quiet w _ (quiet_onSkinChanged w)
  | mouseUp e =>
    simp only [step, Option.some.injEq] at h
    subst h
    by_cases ht : w.isTornOut = true
    · exact quiet w _ (Quiet.of_calls_eq (by simp [mouseUp, ht]))
    · rw [Bool.not_eq_true] at ht
      obtain hc | ⟨c, hc⟩ := Option.eq_none_or_eq_some w.getPrimaryChildAsOverlayComponent
      · exact quiet w _ (Quiet.of_calls_eq (by simp [mouseUp, ht, hc]))
      · by_cases hg : (c.canMoveAround && w.editor.isSome) = true
        · have hg2 := hg
          rw [Bool.and_eq_true] at hg2
          refine ⟨[Call.repaint,
            Call.updateUserDefaultValue w.storage c.moveAroundKey (w.bounds.x, w.bounds.y)],
            ?_, Or.inr ⟨e, c, Or.inl rfl, ht, hc, hg2.1, hg2.2, ?_⟩⟩
          · simp [mouseUp, ht, hc, hg2.1, hg2.2]
          · simp [mouseUp, ht, hc, hg2.1, hg2.2, storageWrites]
        · exact quiet w _ (Quiet.of_calls_eq (by simp [mouseUp, ht, hc, hg]))
  | mouseDoubleClick e =>
    simp only [step, Option.some.injEq] at h
    subst h
    by_cases ht : w.isTornOut = true
    · exact quiet w _ (Quiet.of_calls_eq (by simp [mouseDoubleClick, ht]))
    · rw [Bool.not_eq_true] at ht
      obtain hc | ⟨c, hc⟩ := Option.eq_none_or_eq_some w.getPrimaryChildAsOverlayComponent
      · exact quiet w _ (Quiet.of_calls_eq (by simp [mouseDoubleClick, ht, hc]))
      · by_cases hg : (c.canMoveAround && w.editor.isSome) = true
        · have hg2 := hg
          rw [Bool.and_eq_true] at hg2
          refine ⟨[Call.updateUserDefaultValue w.storage c.moveAroundKey
              (c.defaultLocation.1, c.defaultLocation.2)],
            ?_, Or.inr ⟨e, c, Or.inr rfl, ht, hc, hg2.1, hg2.2, ?_⟩⟩
          · simp [mouseDoubleClick, ht, hc, hg2.1, hg2.2, OverlayWrapper.setBounds]
          · simp [mouseDoubleClick, ht, hc, hg2.1, hg2.2, storageWrites,
              OverlayWrapper.setBounds, boundsAsSet]
        · exact quiet w _ (Quiet.of_calls_eq (by simp [mouseDoubleClick, ht, hc, hg]))

/-- Witness for C5: releasing the mouse over `dragSample` stores its position. -/
theorem presentation_frame_witness :
    ∃ extra, (dragSample.mouseUp ⟨(0, 0)⟩).calls = dragSample.calls ++ extra ∧
      (storageWrites extra = [] ∨
        ∃ e c, (Op.mouseUp ⟨(0, 0)⟩ = Op.mouseUp e ∨ Op.mouseUp ⟨(0, 0)⟩ = Op.mouseDoubleClick e) ∧
          dragSample.isTornOut = false ∧
          dragSample.getPrimaryChildAsOverlayComponent = some c ∧ c.canMoveAround = true ∧
          dragSample.editor.isSome = true ∧
          storageWrites extra =
            [(dragSample.storage, c.moveAroundKey,
              ((dragSample.mouseUp ⟨(0, 0)⟩).bounds.x, (dragSample.mouseUp ⟨(0, 0)⟩).bounds.y))]) :=
  presentation_frame.2.2 (Op.mouseUp ⟨(0, 0)⟩) dragSample (dragSample.mouseUp ⟨(0, 0)⟩) rfl

end OverlayWrapper
end Overlays
end Surge

/-! ## Theorems about the effect adapter -/

namespace FloatyDelayEffect

theorem forall₂_of_invariant : ∀ (table : List ParameterDescriptor) (vals : List ℚ),
    Invariant table ⟨vals⟩ →
      List.Forall₂ (fun d v => d.minValue ≤ v ∧ v ≤ d.maxValue) table vals
  | [], [], _ => List.Forall₂.nil
  | [], _ :: _, h => absurd h.1 (by simp)
  | _ :: _, [], h => absurd h.1 (by simp)
  | d :: ds, v :: vs, h => by
    refine List.Forall₂.cons (h.2 0 d v (by simp) (by simp)) (forall₂_of_invariant ds vs ⟨?_, ?_⟩)
    · have := h.1
      simpa using this
    · intro id d1 v1 h1 h2
      exact h.2 (id + 1) d1 v1 (by simpa using h1) (by simpa using h2)

theorem invariant_of_forall₂ {table : List ParameterDescriptor} {vals : List ℚ}
    (h : List.Forall₂ (fun d v => d.minValue ≤ v ∧ v ≤ d.maxValue) table vals) :
    Invariant table ⟨vals⟩ := by
  induction h with
  | nil => exact ⟨rfl, fun id d v h1 _ => by simp at h1⟩
  | cons hd _ ih =>
    refine ⟨by simpa using ih.1, ?_⟩
    intro id d v h1 h2
    cases id with
    | zero =>
      simp only [List.getElem?_cons_zero, Option.some.injEq] at h1 h2
      subst h1 h2
      exact hd
    | succ n =>
      simp only [List.getElem?_cons_succ] at h1 h2
      exact ih.2 n d v h1 h2

theorem clampToRange_mem (d : ParameterDescriptor) (v : ℚ) (h : d.minValue ≤ d.maxValue) :
    d.minValue ≤ clampToRange d v ∧ clampToRange d v ≤ d.maxValue :=
  ⟨le_max_left _ _, max_le h (min_le_left _ _)⟩

theorem clampToRange_of_mem (d : ParameterDescriptor) (v : ℚ)
    (h : d.minValue ≤ v ∧ v ≤ d.maxValue) : clampToRange d v = v := by
  unfold clampToRange
  rw [min_eq_right h.2, max_eq_right h.1]

theorem length_fillDefaults : ∀ (ds : List ParameterDescriptor) (k : Nat) (pairs : List (Nat × ℚ)),
    (fillDefaults ds k pairs).length = ds.length
  | [], _, _ => rfl
  | _ :: ds, k, pairs => by
    simp [fillDefaults, length_fillDefaults ds (k + 1) pairs]

theorem forall₂_clampAll : ∀ (ds : List ParameterDescriptor) (vs : List ℚ),
    ds.length = vs.length → (∀ d ∈ ds, d.minValue ≤ d.maxValue) →
      List.Forall₂ (fun d v => d.minValue ≤ v ∧ v ≤ d.maxValue) ds (clampAll ds vs)
  | [], [], _, _ => List.Forall₂.nil
  | [], _ :: _, h, _ => absurd h (by simp)
  | _ :: _, [], h, _ => absurd h (by simp)
  | d :: ds, v :: vs, h, hwf => by
    refine List.Forall₂.cons (clampToRange_mem d v (hwf d (List.mem_cons_self _ _))) ?_
    exact forall₂_clampAll ds vs (by simpa using h)
      (fun d1 h1 => hwf d1 (List.mem_cons_of_mem _ h1))

theorem clampAll_of_forall₂ {ds : List ParameterDescriptor} {vs : List ℚ}
    (h : List.Forall₂ (fun d v => d.minValue ≤ v ∧ v ≤ d.maxValue) ds vs) :
    clampAll ds vs = vs := by
  induction h with
  | nil => rfl
  | cons hd _ ih => simp [clampAll, clampToRange_of_mem _ _ hd, ih]

theorem forall₂_defaults : ∀ (ds : List ParameterDescriptor), WellFormed ds →
    List.Forall₂ (fun d v => d.minValue ≤ v ∧ v ≤ d.maxValue) ds (defaultsFor ds)
  | [], _ => List.Forall₂.nil
  | d :: ds, hwf => by
    have hd := hwf d (List.mem_cons_self _ _)
    exact List.Forall₂.cons ⟨hd.2.1, hd.2.2⟩
      (forall₂_defaults ds (fun d1 h1 => hwf d1 (List.mem_cons_of_mem _ h1)))

theorem set_append_length (pre : List ℚ) (v x : ℚ) (vs : List ℚ) :
    (pre ++ v :: vs).set pre.length x = pre ++ x :: vs := by
  induction pre with
  | nil => rfl
  | cons a pre ih => simp [ih]

theorem writeDefaults_append : ∀ (ds : List ParameterDescriptor) (pre vs : List ℚ),
    ds.length ≤ vs.length →
      writeDefaults ds pre.length (pre ++ vs) = pre ++ defaultsFor ds ++ vs.drop ds.length
  | [], pre, vs, _ => by simp [writeDefaults, defaultsFor]
  | d :: ds, pre, [], h => absurd h (by simp)
  | d :: ds, pre, v :: vs, h => by
    have hlen : ds.length ≤ vs.length := by simpa using h
    have ih := writeDefaults_append ds (pre ++ [d.defaultValue]) vs hlen
    simp only [List.length_append, List.length_singleton, List.append_assoc,
      List.singleton_append] at ih
    simp only [writeDefaults, set_append_length, ih, defaultsFor, List.map_cons,
      List.length_cons, List.drop_succ_cons, List.append_assoc, List.cons_append]

theorem init_default_values_values (table : List ParameterDescriptor) (inst : EffectInstance)
    (h : inst.values.length = table.length) :
    (init_default_values table inst).values = defaultsFor table := by
  have := writeDefaults_append table [] inst.values (le_of_eq h.symm)
  simp only [List.length_nil, List.nil_append] at this
  simp [init_default_values, this, ← h]

theorem lookup_enumFrom : ∀ (vs : List ℚ) (k id : Nat),
    List.lookup id (List.enumFrom k vs) = if id < k then none else vs[id - k]?
  | [], k, id => by simp [List.lookup]
  | v :: vs, k, id => by
    rw [List.enumFrom_cons, List.lookup_cons, lookup_enumFrom vs (k + 1) id]
    by_cases h1 : id = k
    · subst h1
      simp
    · have hb : (id == k) = false := by simpa using h1
      rw [hb]
      by_cases h2 : id < k
      · have h3 : id < k + 1 := by omega
        simp [h2, h3]
      · have h3 : ¬ id < k + 1 := by omega
        have h4 : id - k = (id - (k + 1)) + 1 := by omega
        simp only [h2, h3, if_false]
        rw [h4, List.getElem?_cons_succ]

theorem fillDefaults_enum : ∀ (ds : List ParameterDescriptor) (k : Nat) (vs : List ℚ),
    k + ds.length = vs.length → fillDefaults ds k vs.enum = vs.drop k
  | [], k, vs, h => by
    have : vs.length ≤ k := by simp at h; omega
    simp [fillDefaults, List.drop_eq_nil_of_le this]
  | d :: ds, k, vs, h => by
    have hk : k < vs.length := by simp at h; omega
    have ih := fillDefaults_enum ds (k + 1) vs (by simp at h; omega)
    have hl : List.lookup k vs.enum = some vs[k] := by
      rw [List.enum, lookup_enumFrom]
      simp [hk]
    rw [fillDefaults, hl, ih, Option.getD_some]
    exact (List.drop_eq_getElem_cons hk).symm


theorem classify_self (engine : MigrationEngine) (rev : Nat) : classify engine rev rev = [] := by
  unfold classify
  rw [if_neg (lt_irrefl rev)]
  have : engine.rules.filter
      (fun r => decide (rev < r.revision) && decide (r.revision ≤ rev)) = [] := by
    rw [List.filter_eq_nil_iff]
    intro r _
    simp only [Bool.and_eq_true, decide_eq_true_eq, not_and, not_le]
    exact fun h => h
  rw [this]
  rfl

theorem handleStreamingMismatches_self (engine : MigrationEngine)
    (table : List ParameterDescriptor) (inst : EffectInstance) (rev : Nat)
    (hlen : inst.values.length = table.length) :
    (handleStreamingMismatches engine table inst rev rev).values =
      clampAll table inst.values := by
  have hf := fillDefaults_enum table 0 inst.values (by omega)
  simp only [handleStreamingMismatches, loadPatch, migrate, save, Option.getD_some,
    classify_self, rewrite, List.foldl_nil, hf, List.drop_zero]

theorem invariant_hostWrite {table : List ParameterDescriptor} {inst : EffectInstance}
    (hwf : WellFormed table) (h : Invariant table inst) (id : Nat) (v : ℚ) :
    Invariant table (hostWrite table inst id v) := by
  unfold hostWrite
  cases hd : table[id]? with
  | none => exact h
  | some d =>
    refine ⟨by simpa using h.1, ?_⟩
    intro j d1 v1 h1 h2
    simp only [List.getElem?_set] at h2
    by_cases hj : id = j
    · subst hj
      rw [if_pos rfl] at h2
      have hd1 : d1 = d := by
        rw [hd] at h1
        exact (Option.some.inj h1).symm
      subst hd1
      split at h2
      · simp only [Option.some.injEq] at h2
        subst h2
        exact clampToRange_mem d1 v (hwf d1 (List.getElem?_mem hd)).1
      · simp at h2
    · rw [if_neg hj] at h2
      exact h.2 j d1 v1 h1 h2

theorem invariant_init {table : List ParameterDescriptor} {inst : EffectInstance}
    (hwf : WellFormed table) (h : inst.values.length = table.length) :
    Invariant table (init_default_values table inst) := by
  have hv := init_default_values_values table inst h
  have := invariant_of_forall₂ (forall₂_defaults table hwf)
  rw [← hv] at this
  exact this

theorem invariant_loadPatch (engine : MigrationEngine) {table : List ParameterDescriptor}
    (hwf : WellFormed table) (current : Nat) (record : PatchRecord) :
    Invariant table (loadPatch engine table current record) := by
  unfold loadPatch migrate
  exact invariant_of_forall₂
    (forall₂_clampAll table _ (length_fillDefaults table 0 _).symm (fun d hd => (hwf d hd).1))

theorem invariant_applyEvent (engine : MigrationEngine) {table : List ParameterDescriptor}
    (hwf : WellFormed table) (current : Nat) {inst : EffectInstance}
    (h : Invariant table inst) (ev : Event) :
    Invariant table (applyEvent engine table current inst ev) := by
  cases ev with
  | hostWrite id v => exact invariant_hostWrite hwf h id v
  | resetToDefault => exact invariant_init hwf h.1
  | loadPatch record => exact invariant_loadPatch engine hwf current record
  | handleStreamingMismatches rev => exact invariant_loadPatch engine hwf current _

theorem invariant_foldl (engine : MigrationEngine) {table : List ParameterDescriptor}
    (hwf : WellFormed table) (current : Nat) :
    ∀ (events : List Event) (inst : EffectInstance), Invariant table inst →
      Invariant table (events.foldl (applyEvent engine table current) inst)
  | [], _, h => h
  | ev :: evs, _, h =>
    invariant_foldl engine hwf current evs _ (invariant_applyEvent engine hwf current h ev)

theorem wellFormed_sampleTable : WellFormed sampleTable := by
  intro d hd
  simp only [sampleTable, List.mem_cons, List.mem_singleton, List.not_mem_nil, or_false] at hd
  rcases hd with rfl | rfl <;> norm_num

theorem invariant_sample : Invariant sampleTable ⟨[1 / 4, 3 / 4]⟩ := by
  refine invariant_of_forall₂ (List.Forall₂.cons ?_ (List.Forall₂.cons ?_ List.Forall₂.nil))
  · norm_num
  · norm_num

/-- C1.  For every Effect Instance, that is every parameter vector that satisfies
the Effect Instance invariant (one slot per descriptor, every value inside the
declared range), `handleStreamingMismatches` with `streamingRevision` equal to
`currentSynthStreamingRevision` is a no-op: the instance after the call is the
instance before the call, and a read of any id yields the value it held. -/
theorem migration_idempotence (engine : MigrationEngine) (table : List ParameterDescriptor)
    (inst : EffectInstance) (rev : Nat) (hinv : Invariant table inst) :
    handleStreamingMismatches engine table inst rev rev = inst ∧
    ∀ id : Nat, read (handleStreamingMismatches engine table inst rev rev) id = read inst id := by
  have hv := handleStreamingMismatches_self engine table inst rev hinv.1
  have hc := clampAll_of_forall₂ (forall₂_of_invariant table inst.values hinv)
  rw [hc] at hv
  have heq : handleStreamingMismatches engine table inst rev rev = inst := by
    cases inst
    cases hr : handleStreamingMismatches engine table _ rev rev
    rw [hr] at hv
    simp only at hv
    rw [hv]
  exact ⟨heq, fun id => by rw [heq]⟩

/-- Witness for C1: the instance (1/4, 3/4) of the sample effect at revision 2. -/
theorem migration_idempotence_witness :
    Invariant sampleTable ⟨[1 / 4, 3 / 4]⟩ ∧
    handleStreamingMismatches sampleEngine sampleTable ⟨[1 / 4, 3 / 4]⟩ 2 2 =
      ⟨[1 / 4, 3 / 4]⟩ ∧
    ∀ id : Nat,
      read (handleStreamingMismatches sampleEngine sampleTable ⟨[1 / 4, 3 / 4]⟩ 2 2) id =
        read ⟨[1 / 4, 3 / 4]⟩ id :=
  ⟨invariant_sample,
    migration_idempotence sampleEngine sampleTable ⟨[1 / 4, 3 / 4]⟩ 2 invariant_sample⟩

/-- C2.  For a well-formed descriptor table (every range non-empty, every default
inside its range), the instance the render path sees after instantiation and
any sequence of host writes, resets, patch loads and migrations satisfies the
Effect Instance invariant: one slot per descriptor, each value inside the
declared range.  In particular the array a patch load installs, for any record
and any rule table, is inside the ranges. -/
theorem range_invariant (engine : MigrationEngine) (table : List ParameterDescriptor)
    (current : Nat) (hwf : WellFormed table) :
    (∀ events : List Event, Invariant table (run engine table current events)) ∧
    (∀ record : PatchRecord, Invariant table (loadPatch engine table current record)) := by
  constructor
  · intro events
    exact invariant_foldl engine hwf current events _
      (invariant_init hwf (by simp))
  · intro record
    exact invariant_loadPatch engine hwf current record

/-- Witness for C2: the sample effect at revision 2. -/
theorem range_invariant_witness :
    (∀ events : List Event, Invariant sampleTable (run sampleEngine sampleTable 2 events)) ∧
    (∀ record : PatchRecord, Invariant sampleTable (loadPatch sampleEngine sampleTable 2 record)) :=
  range_invariant sampleEngine sampleTable 2 wellFormed_sampleTable

/-- C3.  After `init_default_values` on an instance whose array is as long as the
descriptor table, the array is the canonical default vector, and a read of any
descriptor id yields the default of that descriptor: no id is left unset. -/
theorem default_completeness (table : List ParameterDescriptor) (inst : EffectInstance)
    (hlen : inst.values.length = table.length) :
    (init_default_values table inst).values = defaultsFor table ∧
    ∀ (id : Nat) (d : ParameterDescriptor), table[id]? = some d →
      read (init_default_values table inst) id = some d.defaultValue := by
  have hv := init_default_values_values table inst hlen
  refine ⟨hv, ?_⟩
  intro id d hd
  unfold read
  rw [hv, defaultsFor, List.getElem?_map, hd]
  rfl

/-- Witness for C3: the sample effect over an array holding (7, 8). -/
theorem default_completeness_witness :
    (init_default_values sampleTable ⟨[7, 8]⟩).values = defaultsFor sampleTable ∧
    ∀ (id : Nat) (d : ParameterDescriptor), sampleTable[id]? = some d →
      read (init_default_values sampleTable ⟨[7, 8]⟩) id = some d.defaultValue :=
  default_completeness sampleTable ⟨[7, 8]⟩ rfl

/-- C4.  In a release build, the build in which section 4.2 of the specification
provides the fallback, `group_label` of every group id that is not in the group
metadata table returns the label "Other": it returns a label and does not stop. -/
theorem group_label_release_fallback (groups : List ParameterGroup) (id : Int)
    (h : ∀ g ∈ groups, g.id ≠ id) : group_label false groups id = some "Other" := by
  unfold group_label
  have hf : groups.find? (fun g => g.id == id) = none := by
    rw [List.find?_eq_none]
    intro g hg
    simpa using h g hg
  rw [hf]
  rfl

/-- Witness for C4: group id 5 is not a group of the sample effect. -/
theorem group_label_release_fallback_witness :
    (∀ g ∈ sampleGroups, g.id ≠ 5) ∧ group_label false sampleGroups 5 = some "Other" :=
  ⟨by decide, group_label_release_fallback sampleGroups 5 (by decide)⟩

end FloatyDelayEffect
